import Mathlib

/-!
Shallow embedding of the ktye/map repository (Go) in Lean 4.

The embedding covers:
* the coordinate / projection engine of `coordinates.go` (package maps) and
  of the tile package (`tile/tile.go`): `LatLon`, `XY`, `LatLon.XY`,
  `XY.LatLon`, `MinLatitude`, `MaxLatitude`;
* the tile source layer of `tile/tile.go`: `normalizeTile`, `NumTiles`,
  `CacheServer`, `PointServer`, `SparsePointServer`, `CombinedServer`
  (the local-disk file system and the remote http layer are modelled as an
  explicit `World` record holding the disk contents and the network oracle,
  and the spy counters of the verification scenario are threaded through the
  combined lookup);
* the export pipeline of `orux/orux.go`: `Map.Count` and the size guard of
  `Map.Encode`.

Go `float64` arithmetic is idealized over the reals; Go `int` is modelled by
`Int` (the values reached in the claims stay far below 2^63); Go's `%` on
ints is truncating, hence `Int.tmod`; Go's `int(x)` conversion from float
truncates toward zero, hence `trunc` below.  Go maps are modelled as
association lists whose insert replaces an existing key, so the list length
agrees with Go's `len` on maps.
-/

namespace Maps

/-- A pixel color; the concrete channel layout of Go's `color.Color`
does not matter for the claims, only that distinct colors are
distinguishable. -/
structure Color where
  r : ℕ
  g : ℕ
  b : ℕ
  a : ℕ
deriving DecidableEq

/-- The solid black color (`color.Black`, alpha 0xffff as RGBA). -/
def blackColor : Color := ⟨0, 0, 0, 65535⟩

/-- The color `color.Opaque` drawn by the point rasterizers. -/
def markColor : Color := ⟨65535, 65535, 65535, 65535⟩

/-- The zero value of `image.NewAlpha`: a fully transparent pixel. -/
def clearColor : Color := ⟨0, 0, 0, 0⟩

/-- A 256x256 raster tile, as the pixel grid of `image.Image`.  Pixels are
addressed by (column, row); `Tile.set` below ignores out-of-bounds writes
just as Go's `image` setters do. -/
def Tile : Type := ℤ → ℤ → Color

/-- Pixel write (`im.Set(px, py, c)`): out-of-bounds writes are ignored. -/
def Tile.set (t : Tile) (px py : ℤ) (c : Color) : Tile := fun i j =>
  if i = px ∧ j = py ∧ 0 ≤ px ∧ px < 256 ∧ 0 ≤ py ∧ py < 256 then c else t i j

/-- The package-level black fallback tile built in `init()` of `tile/tile.go`. -/
def blackTile : Tile := fun _ _ => blackColor

/-- A fresh `image.NewAlpha(image.Rect(0,0,256,256))`: fully transparent. -/
def clearTile : Tile := fun _ _ => clearColor

/-! ## Coordinates (`coordinates.go`, shared by the tile package) -/

/-- Degrees to radians (`Degree.Radians`). -/
noncomputable def radians (d : ℝ) : ℝ := d / 180 * Real.pi

/-- A point as spherical angles in degree (`LatLon` of `coordinates.go`). -/
structure LatLon where
  Lat : ℝ
  Lon : ℝ

/-- Tile coordinates with pixel offset and zoom index (`XY`). -/
structure XY where
  X : ℤ
  Y : ℤ
  XP : ℤ
  YP : ℤ
  Z : ℤ
deriving DecidableEq

/-- The maximal latitude a tile coordinate can represent (`MaxLatitude`). -/
noncomputable def MaxLatitude : ℝ := 85.05112877980659

/-- The table `two[z] = 2^z` of `coordinates.go` for zoom values 0..24. -/
noncomputable def two (z : ℤ) : ℝ := 2 ^ z.toNat

/-- Go's `int(x)` conversion from `float64`: truncation toward zero. -/
noncomputable def trunc (x : ℝ) : ℤ := if 0 ≤ x then ⌊x⌋ else ⌈x⌉

/-- Inverse projection `XY.LatLon`: tile coordinates back to degrees. -/
noncomputable def XY.LatLon (xy : XY) : Maps.LatLon :=
  let x : ℝ := (xy.X : ℝ) + (xy.XP : ℝ) / 256
  let y : ℝ := (xy.Y : ℝ) + (xy.YP : ℝ) / 256
  let n : ℝ := Real.pi - 2 * Real.pi * y / two xy.Z
  { Lat := 180 / Real.pi * Real.arctan (0.5 * (Real.exp n - Real.exp (-n)))
    Lon := x / two xy.Z * 360 - 180 }

/-- The minimal representable latitude for a zoom level (`MinLatitude`):
the latitude of the bottom-right pixel of the bottom-right tile. -/
noncomputable def MinLatitude (z : ℤ) : ℝ :=
  (XY.LatLon ⟨2 ^ z.toNat - 1, 2 ^ z.toNat - 1, 255, 255, z⟩).Lat

/-- The failures of `LatLon.XY`: the shared `ZoomRangeError` and the
formatted latitude-representability error (which carries the latitude). -/
inductive XYError where
  | zoomRange : XYError
  | latRange : ℝ → XYError

open Classical in
/-- Forward projection `LatLon.XY` of `coordinates.go`: degrees to tile
coordinates at a zoom level, with the zoom-range and latitude checks. -/
noncomputable def LatLon.XY (d : Maps.LatLon) (z : ℤ) : Except XYError XY :=
  if z < 0 ∨ 24 < z then .error .zoomRange
  else if d.Lat < MinLatitude z ∨ MaxLatitude < d.Lat then .error (.latRange d.Lat)
  else
    let x : ℝ := (d.Lon + 180) / 360 * two z
    let y : ℝ :=
      (1 - Real.log (Real.tan (radians d.Lat) + 1 / Real.cos (radians d.Lat)) / Real.pi)
        / 2 * two z
    .ok
      { X := trunc x
        Y := trunc y
        Z := z
        XP := trunc (256 * (x - (trunc x : ℝ)))
        YP := trunc (256 * (y - (trunc y : ℝ))) }

/-! ## The tile package (`tile/tile.go`) -/

/-- The tile-index triple (z, (x, y)) used as cache and disk key. -/
abbrev Key : Type := ℤ × ℤ × ℤ

/-- Number of tiles per direction (`NumTiles`): `2^z` inside the zoom
range 0..24 and `0` outside. -/
def NumTiles (z : ℤ) : ℤ := if z < 0 ∨ 24 < z then 0 else 2 ^ z.toNat

/-- Index wraparound (`normalizeTile`): Go's truncating `%` by `2^z`,
shifted up by the modulus when negative. -/
def normalizeTile (z x y : ℤ) : ℤ × ℤ :=
  let m := NumTiles z
  let x := x.tmod m
  let y := y.tmod m
  (if x < 0 then x + m else x, if y < 0 then y + m else y)

/-- The errors the modelled tile sources report. -/
inductive TileError where
  | notCached : TileError
  | notFound : TileError
  | zoomMismatch : ℤ → ℤ → TileError
  | eof : TileError
deriving DecidableEq

/-- Association-list update with Go-map semantics: replace the entry of an
existing key, append otherwise, so the length counts distinct keys. -/
def mapInsert (k : Key) (t : Tile) : List (Key × Tile) → List (Key × Tile)
  | [] => [(k, t)]
  | e :: rest => if e.1 = k then (k, t) :: rest else e :: mapInsert k t rest

/-- Association-list lookup with Go-map semantics. -/
def mapLookup (k : Key) : List (Key × Tile) → Option Tile
  | [] => none
  | e :: rest => if e.1 = k then some e.2 else mapLookup k rest

/-- The in-memory cache (`CacheServer`): a capacity and an optional map.
The zero value has a nil map (`m = none`) and is disabled. -/
structure CacheServer where
  maxTiles : ℤ
  m : Option (List (Key × Tile))

/-- The zero value of `CacheServer`: declared without `NewCacheServer`,
so `maxTiles` is 0 and the map is nil. -/
def zeroCacheServer : CacheServer := ⟨0, none⟩

/-- `NewCacheServer`: an enabled cache with an empty map. -/
def NewCacheServer (maxTiles : ℤ) : CacheServer := ⟨maxTiles, some []⟩

/-- `CacheServer.Get`: normalize, then look the key up; a missing key (and
in particular a nil map) reports the tile-is-not-cached error. -/
def CacheServer.Get (c : CacheServer) (z x y : ℤ) : Except TileError Tile :=
  let n := normalizeTile z x y
  match c.m with
  | none => .error .notCached
  | some l =>
    match mapLookup (z, n.1, n.2) l with
    | none => .error .notCached
    | some t => .ok t

/-- `CacheServer.Add`: normalize; a nil map returns immediately; the entry
is stored only while `maxTiles` is the zero sentinel or the map holds fewer
than `maxTiles` entries. -/
def CacheServer.Add (c : CacheServer) (z x y : ℤ) (t : Tile) : CacheServer :=
  let n := normalizeTile z x y
  match c.m with
  | none => c
  | some l =>
    if c.maxTiles = 0 ∨ (l.length : ℤ) < c.maxTiles then
      { c with m := some (mapInsert (z, n.1, n.2) t l) }
    else c

/-- The world outside the process: the local tile file system (decoded
tiles by key) and the remote tile server (`none` models any failed
fetch: network error, bad status or undecodable png). -/
structure World where
  disk : List (Key × Tile)
  net : Key → Option Tile

/-- `LocalServer.Get`: normalize and read `z/x/y.png` from the disk; a
missing file is a not-found error. -/
def LocalServer.Get (w : World) (z x y : ℤ) : Except TileError Tile :=
  let n := normalizeTile z x y
  match mapLookup (z, n.1, n.2) w.disk with
  | none => .error .notFound
  | some t => .ok t

/-- `LocalServer.Add`: normalize and overwrite `z/x/y.png` on disk (the
combined source only calls it with a configured path). -/
def LocalServer.Add (w : World) (z x y : ℤ) (t : Tile) : World :=
  let n := normalizeTile z x y
  { w with disk := mapInsert (z, n.1, n.2) t w.disk }

/-- A `PointServer`: a draw color and the coordinate list read from file. -/
structure PointServer where
  Color : Maps.Color
  coords : List Maps.LatLon

open Classical in
/-- `PointServer.Get` as written in `tile/tile.go`: a transparent tile on
which a coordinate is drawn only when its `XY` conversion reports an error
(the zero `XY` value is then compared against the requested indexes). -/
noncomputable def PointServer.Get (p : PointServer) (z x y : ℤ) :
    Tile × Option TileError :=
  (p.coords.foldl
    (fun im c =>
      match Maps.LatLon.XY c z with
      | .error _ => if (0 : ℤ) = x ∧ (0 : ℤ) = y then im.set 0 0 Maps.markColor else im
      | .ok _ => im)
    clearTile, none)

/-- Lookup in the tile-index-to-pixel-list map of `SparsePointServer`. -/
def pmLookup (k : ℤ × ℤ) : List ((ℤ × ℤ) × List (ℤ × ℤ)) → Option (List (ℤ × ℤ))
  | [] => none
  | e :: rest => if e.1 = k then some e.2 else pmLookup k rest

/-- Append a pixel to a key's list (`s.points[key] = append(pts, ...)`). -/
def pmAppend (k v : ℤ × ℤ) :
    List ((ℤ × ℤ) × List (ℤ × ℤ)) → List ((ℤ × ℤ) × List (ℤ × ℤ))
  | [] => [(k, [v])]
  | e :: rest => if e.1 = k then (k, e.2 ++ [v]) :: rest else e :: pmAppend k v rest

/-- `SparsePointServer`: points grouped by tile index at a fixed zoom
level, the insertion-ordered key list, and the iteration position `p`. -/
structure SparsePointServer where
  z : ℤ
  points : List ((ℤ × ℤ) × List (ℤ × ℤ))
  keys : List (ℤ × ℤ)
  p : ℕ

/-- `NewSparsePointServer`: check the zoom range, then group every point
by the tile it falls in, recording first-seen keys in order; any point
whose conversion fails aborts the construction. -/
noncomputable def NewSparsePointServer (z : ℤ) (points : List Maps.LatLon) :
    Except XYError SparsePointServer :=
  if z < 0 ∨ 24 < z then .error .zoomRange
  else
    points.foldlM
      (fun s ll =>
        match Maps.LatLon.XY ll z with
        | .error e => .error e
        | .ok xy =>
          let key := (xy.X, xy.Y)
          let isNew := (pmLookup key s.points).isNone
          .ok { s with
                points := pmAppend key (xy.XP, xy.YP) s.points
                keys := if isNew then s.keys ++ [key] else s.keys })
      ⟨z, [], [], 0⟩

/-- `SparsePointServer.Get`: only the construction zoom level is served;
the tile rasterizes the stored pixel offsets of the requested index. -/
def SparsePointServer.Get (s : SparsePointServer) (z x y : ℤ) :
    Except TileError Tile :=
  if z ≠ s.z then .error (.zoomMismatch z s.z)
  else
    .ok
      (match pmLookup (x, y) s.points with
       | some pts => pts.foldl (fun im pt => im.set pt.1 pt.2 Maps.markColor) clearTile
       | none => clearTile)

/-- `SparsePointServer.Next` as written in `tile/tile.go`: past the end it
reports EOF; otherwise it advances and calls `s.Get(z, x, y)` where `z`,
`x` and `y` are the still-zero named return values, pairing the resulting
tile or error with the current key and the construction zoom level. -/
def SparsePointServer.Next (s : SparsePointServer) :
    (ℤ × ℤ × ℤ × Option Tile × Option TileError) × SparsePointServer :=
  if s.keys.length ≤ s.p then ((0, 0, 0, none, some .eof), s)
  else
    let key := s.keys.getD s.p (0, 0)
    let s' := { s with p := s.p + 1 }
    match s.Get 0 0 0 with
    | .ok t => ((s.z, key.1, key.2, some t, none), s')
    | .error e => ((s.z, key.1, key.2, none, some e), s')

/-- `CombinedServer`: the optional point overlay, the optional cache, and
whether the local path and the remote base URL are configured (non-empty
strings in Go). -/
structure CombinedServer where
  Points : Option PointServer
  Cache : Option CacheServer
  Local : Bool
  Http : Bool

/-- What one combined lookup produces: the tile and error of Go's return
values, the mutated cache and world, and the spy counters (how many times
the local disk and the network were read). -/
structure GetResult where
  tile : Tile
  err : Option TileError
  server : CombinedServer
  world : World
  localReads : ℕ
  netReads : ℕ

/-- The backfill step `if c.Cache != nil && c.Cache.m != nil { c.Cache.Add(...) }`. -/
def backfill (c : CombinedServer) (z x y : ℤ) (t : Tile) : CombinedServer :=
  match c.Cache with
  | some cs => if cs.m.isSome then { c with Cache := some (cs.Add z x y t) } else c
  | none => c

/-- The remote step of `CombinedServer.get`: when configured, fetch the
normalized key from the net; a hit backfills the disk (when the local path
is configured) and the cache; a miss falls through to the black tile. -/
def CombinedServer.getHttp (c : CombinedServer) (w : World) (z x y : ℤ) (lr : ℕ) :
    GetResult :=
  if c.Http then
    let n := normalizeTile z x y
    match w.net (z, n.1, n.2) with
    | some t =>
      let w' := if c.Local then LocalServer.Add w z x y t else w
      ⟨t, none, backfill c z x y t, w', lr, 1⟩
    | none => ⟨blackTile, none, c, w, lr, 1⟩
  else ⟨blackTile, none, c, w, lr, 0⟩

/-- The local-disk step of `CombinedServer.get`: when configured, read the
disk; a hit backfills the cache; a miss falls through to the remote step. -/
def CombinedServer.getLocal (c : CombinedServer) (w : World) (z x y : ℤ) :
    GetResult :=
  if c.Local then
    match LocalServer.Get w z x y with
    | .ok t => ⟨t, none, backfill c z x y t, w, 1, 0⟩
    | .error _ => c.getHttp w z x y 1
  else c.getHttp w z x y 0

/-- `CombinedServer.get`: normalize, then try the cache (when present and
enabled), the local disk and the net in that order; every return site
carries a nil error, and when everything misses the black tile is
returned. -/
def CombinedServer.get (c : CombinedServer) (w : World) (z x y : ℤ) : GetResult :=
  let n := normalizeTile z x y
  match c.Cache with
  | some cs =>
    if cs.m.isSome then
      match cs.Get z n.1 n.2 with
      | .ok t => ⟨t, none, c, w, 0, 0⟩
      | .error _ => c.getLocal w z n.1 n.2
    else c.getLocal w z n.1 n.2
  | none => c.getLocal w z n.1 n.2

open Classical in
/-- The point-overlay loop of `CombinedServer.Get`: every coordinate whose
conversion succeeds and lands in the requested tile is drawn on top. -/
noncomputable def overlay (p : PointServer) (z x y : ℤ) (t : Tile) : Tile :=
  p.coords.foldl
    (fun im c =>
      match Maps.LatLon.XY c z with
      | .ok xy => if xy.X = x ∧ xy.Y = y then im.set xy.XP xy.YP p.Color else im
      | .error _ => im)
    t

/-- `CombinedServer.Get`: the chained lookup, then (on a nil error, which
is every case) the point overlay when one is configured. -/
noncomputable def CombinedServer.Get (c : CombinedServer) (w : World) (z x y : ℤ) :
    GetResult :=
  let r := c.get w z x y
  if r.err.isSome then r
  else
    match c.Points with
    | none => r
    | some p => { r with tile := overlay p z x y r.tile }

/-! ## The orux export pipeline (`orux/orux.go`) -/

namespace orux

/-- The package-level `tileLimit`: `Encode` complains above 40 tiles. -/
def tileLimit : ℤ := 40

/-- `orux.Map`: the map rectangle and the zoom levels to store. -/
structure Map where
  TopLeft : Maps.LatLon
  BottomRight : Maps.LatLon
  ZoomLevels : List ℤ

/-- The failures of `orux.Map.Count`: a corner conversion error or the
wrong-definition error when a bottom-right index is below the top-left. -/
inductive CountError where
  | coordinate : Maps.XYError → CountError
  | wrongCorners : CountError

open Classical in
/-- `orux.Map.Count` as written in `orux/orux.go`: per zoom level, convert
both corners and accumulate `(br.X - tl.X) * (br.Y - tl.Y)` (without the
inclusive +1 on either axis). -/
noncomputable def Map.Count (m : Map) : Except CountError ℤ :=
  m.ZoomLevels.foldlM
    (fun sum z =>
      match Maps.LatLon.XY m.TopLeft z with
      | .error e => .error (.coordinate e)
      | .ok tl =>
        match Maps.LatLon.XY m.BottomRight z with
        | .error e => .error (.coordinate e)
        | .ok br =>
          if br.X < tl.X ∨ br.Y < tl.Y then .error .wrongCorners
          else .ok (sum + (br.X - tl.X) * (br.Y - tl.Y)))
    0

open Classical in
/-- Follows the spec's words (and the inclusive tile loops of
`Map.sqlitePipe`), for comparison with `Map.Count`: the total tile count is
the sum over the configured zoom levels of
`(bottomRightX - topLeftX + 1) * (bottomRightY - topLeftY + 1)`. -/
noncomputable def Map.CountSpec (m : Map) : Except CountError ℤ :=
  m.ZoomLevels.foldlM
    (fun sum z =>
      match Maps.LatLon.XY m.TopLeft z with
      | .error e => .error (.coordinate e)
      | .ok tl =>
        match Maps.LatLon.XY m.BottomRight z with
        | .error e => .error (.coordinate e)
        | .ok br =>
          if br.X < tl.X ∨ br.Y < tl.Y then .error .wrongCorners
          else .ok (sum + (br.X - tl.X + 1) * (br.Y - tl.Y + 1)))
    0

/-- What the guard at the top of `orux.Map.Encode` decides before any
directory is created. -/
inductive EncodeDecision where
  | countFailed : CountError → EncodeDecision
  | tooLarge : ℤ → EncodeDecision
  | mkdir : EncodeDecision

open Classical in
/-- The size guard of `orux.Map.Encode`: a count error is returned, a count
above `tileLimit` is refused as a too-large map, and otherwise `Encode`
proceeds to `os.Mkdir`. -/
noncomputable def Map.EncodeGuard (m : Map) : EncodeDecision :=
  match m.Count with
  | .error e => .countFailed e
  | .ok n => if tileLimit < n then .tooLarge n else .mkdir

end orux

/-! ## Devices used only to state the claims -/

/-- A key already in canonical form: zoom in 0..24 and both indexes inside
the `[0, 2^z)` grid, so that `normalizeTile` leaves it unchanged. -/
def canonicalKey (k : Key) : Prop :=
  0 ≤ k.1 ∧ k.1 ≤ 24 ∧
    0 ≤ k.2.1 ∧ k.2.1 < 2 ^ k.1.toNat ∧ 0 ≤ k.2.2 ∧ k.2.2 < 2 ^ k.1.toNat

instance : DecidablePred canonicalKey := fun k => by
  unfold canonicalKey; infer_instance

/-- Add a list of keyed tiles to a cache, one `CacheServer.Add` each. -/
def addAll (c : CacheServer) (ents : List (Key × Tile)) : CacheServer :=
  ents.foldl (fun acc e => acc.Add e.1.1 e.1.2.1 e.1.2.2 e.2) c

/-- Insert a list of keyed tiles into an association list, in order. -/
def insertAll (m : List (Key × Tile)) (ents : List (Key × Tile)) :
    List (Key × Tile) :=
  ents.foldl (fun mm e => mapInsert e.1 e.2 mm) m

/-! ## Arithmetic of the index wraparound -/

/-- Go's truncating `%` followed by the negative shift agrees with the
mathematician's nonnegative remainder. -/
theorem tmod_wrap (a m : ℤ) (hm : 0 < m) :
    (if a.tmod m < 0 then a.tmod m + m else a.tmod m) = a % m := by
  have hcong : a.tmod m % m = a % m := by
    conv_rhs => rw [← Int.tdiv_add_tmod a m]
    rw [add_comm, Int.add_mul_emod_self_left]
  have hneg : a.tmod m = -((-a).tmod m) := by
    rw [Int.tmod_def, Int.tmod_def, Int.neg_tdiv]; ring
  by_cases h : a.tmod m < 0
  · rw [if_pos h]
    have hub : (-a).tmod m < m := Int.tmod_lt_of_pos _ hm
    have hlb : -m < a.tmod m := by rw [hneg]; omega
    have h0 : 0 ≤ a.tmod m + m := by omega
    have h1 : a.tmod m + m < m := by omega
    calc a.tmod m + m = (a.tmod m + m) % m := (Int.emod_eq_of_lt h0 h1).symm
      _ = a.tmod m % m := Int.add_emod_self
      _ = a % m := hcong
  · rw [if_neg h]
    push_neg at h
    have h1 : a.tmod m < m := Int.tmod_lt_of_pos a hm
    calc a.tmod m = a.tmod m % m := (Int.emod_eq_of_lt h h1).symm
      _ = a % m := hcong

theorem NumTiles_of_mem (z : ℤ) (h0 : 0 ≤ z) (h1 : z ≤ 24) :
    NumTiles z = 2 ^ z.toNat := by
  unfold NumTiles
  rw [if_neg]
  omega

theorem NumTiles_pos (z : ℤ) (h0 : 0 ≤ z) (h1 : z ≤ 24) : 0 < NumTiles z := by
  rw [NumTiles_of_mem z h0 h1]
  positivity

/-- In the valid zoom range, `normalizeTile` computes the nonnegative
remainders by `2^z`. -/
theorem normalizeTile_eq_emod (z x y : ℤ) (h0 : 0 ≤ z) (h1 : z ≤ 24) :
    normalizeTile z x y = (x % 2 ^ z.toNat, y % 2 ^ z.toNat) := by
  have hp := NumTiles_pos z h0 h1
  have he := NumTiles_of_mem z h0 h1
  simp only [normalizeTile]
  rw [tmod_wrap _ _ hp, tmod_wrap _ _ hp, he]

/-- Out of the zoom range, `NumTiles` is 0 and `normalizeTile` is the
identity (Go's `%` by zero would panic, but the callers in the claims
guard the zoom first; `Int.tmod` by 0 is the identity). -/
theorem normalizeTile_of_not_mem (z x y : ℤ) (h : z < 0 ∨ 24 < z) :
    normalizeTile z x y = (x, y) := by
  have h0 : NumTiles z = 0 := by unfold NumTiles; rw [if_pos h]
  simp only [normalizeTile, h0, Int.tmod_zero, add_zero]
  have hx : (if x < 0 then x else x) = x := by split <;> rfl
  have hy : (if y < 0 then y else y) = y := by split <;> rfl
  rw [hx, hy]

theorem normalizeTile_canonical (z x y : ℤ) (h0 : 0 ≤ z) (h1 : z ≤ 24)
    (hx0 : 0 ≤ x) (hx1 : x < 2 ^ z.toNat) (hy0 : 0 ≤ y) (hy1 : y < 2 ^ z.toNat) :
    normalizeTile z x y = (x, y) := by
  rw [normalizeTile_eq_emod z x y h0 h1, Int.emod_eq_of_lt hx0 hx1,
    Int.emod_eq_of_lt hy0 hy1]

theorem normalizeTile_idem (z x y : ℤ) :
    normalizeTile z (normalizeTile z x y).1 (normalizeTile z x y).2 =
      normalizeTile z x y := by
  by_cases h : z < 0 ∨ 24 < z
  · rw [normalizeTile_of_not_mem z x y h]
    exact normalizeTile_of_not_mem z _ _ h
  · push_neg at h
    have h0 : 0 ≤ z := h.1
    have h1 : z ≤ 24 := h.2
    rw [normalizeTile_eq_emod z x y h0 h1]
    have hp : (0 : ℤ) < 2 ^ z.toNat := by positivity
    rw [normalizeTile_eq_emod z _ _ h0 h1,
      Int.emod_eq_of_lt (Int.emod_nonneg x (by omega)) (Int.emod_lt_of_pos x hp),
      Int.emod_eq_of_lt (Int.emod_nonneg y (by omega)) (Int.emod_lt_of_pos y hp)]

/-- C9: for every zoom level z in [0,24] and all integers x, y,
`normalizeTile z x y` returns coordinates in [0, 2^z) congruent to x
resp. y modulo 2^z (negative inputs shifted up by the modulus), and in
particular `normalizeTile z (-1) y` equals `normalizeTile z (2^z - 1) y`. -/
theorem C9_normalizeTile_wraparound (z x y : ℤ) (h0 : 0 ≤ z) (h1 : z ≤ 24) :
    (0 ≤ (normalizeTile z x y).1 ∧ (normalizeTile z x y).1 < 2 ^ z.toNat ∧
      Int.ModEq (2 ^ z.toNat) ((normalizeTile z x y).1) x) ∧
    (0 ≤ (normalizeTile z x y).2 ∧ (normalizeTile z x y).2 < 2 ^ z.toNat ∧
      Int.ModEq (2 ^ z.toNat) ((normalizeTile z x y).2) y) ∧
    normalizeTile z (-1) y = normalizeTile z (2 ^ z.toNat - 1) y := by
  have hp : (0 : ℤ) < 2 ^ z.toNat := by positivity
  have hmx : (x % 2 ^ z.toNat) % 2 ^ z.toNat = x % 2 ^ z.toNat :=
    Int.emod_emod_of_dvd x (dvd_refl _)
  have hmy : (y % 2 ^ z.toNat) % 2 ^ z.toNat = y % 2 ^ z.toNat :=
    Int.emod_emod_of_dvd y (dvd_refl _)
  rw [normalizeTile_eq_emod z x y h0 h1, normalizeTile_eq_emod z (-1) y h0 h1,
    normalizeTile_eq_emod z (2 ^ z.toNat - 1) y h0 h1]
  refine ⟨⟨Int.emod_nonneg x (by omega), Int.emod_lt_of_pos x hp, hmx⟩,
    ⟨Int.emod_nonneg y (by omega), Int.emod_lt_of_pos y hp, hmy⟩, ?_⟩
  have hwrap : (-1 : ℤ) % 2 ^ z.toNat = (2 ^ z.toNat - 1) % 2 ^ z.toNat := by
    have := Int.neg_emod (a := 1) (b := 2 ^ z.toNat)
    simpa using this
  rw [hwrap]

/-- Witness for C9 at z = 1, x = 5, y = -3. -/
theorem C9_witness :
    ((0 ≤ (normalizeTile 1 5 (-3)).1 ∧ (normalizeTile 1 5 (-3)).1 < 2 ^ (1 : ℤ).toNat ∧
      Int.ModEq (2 ^ (1 : ℤ).toNat) ((normalizeTile 1 5 (-3)).1) 5) ∧
    (0 ≤ (normalizeTile 1 5 (-3)).2 ∧ (normalizeTile 1 5 (-3)).2 < 2 ^ (1 : ℤ).toNat ∧
      Int.ModEq (2 ^ (1 : ℤ).toNat) ((normalizeTile 1 5 (-3)).2) (-3)) ∧
    normalizeTile 1 (-1) (-3) = normalizeTile 1 (2 ^ (1 : ℤ).toNat - 1) (-3)) ∧
    normalizeTile 1 5 (-3) = (1, 1) :=
  ⟨C9_normalizeTile_wraparound 1 5 (-3) (by decide) (by decide), by decide⟩

/-! ## The bounded cache -/

theorem mapLookup_insert_self (k : Key) (t : Tile) (m : List (Key × Tile)) :
    mapLookup k (mapInsert k t m) = some t := by
  induction m with
  | nil => simp [mapInsert, mapLookup]
  | cons e rest ih =>
    by_cases h : e.1 = k
    · simp [mapInsert, mapLookup, h]
    · simp [mapInsert, mapLookup, h, ih]

theorem mapLookup_cons (k : Key) (e : Key × Tile) (rest : List (Key × Tile)) :
    mapLookup k (e :: rest) = if e.1 = k then some e.2 else mapLookup k rest := rfl

theorem mapInsert_cons (k : Key) (t : Tile) (e : Key × Tile)
    (rest : List (Key × Tile)) :
    mapInsert k t (e :: rest) =
      if e.1 = k then (k, t) :: rest else e :: mapInsert k t rest := rfl

theorem mapLookup_insert_ne (k k' : Key) (t : Tile) (m : List (Key × Tile))
    (h : k' ≠ k) : mapLookup k' (mapInsert k t m) = mapLookup k' m := by
  induction m with
  | nil =>
    show mapLookup k' [(k, t)] = mapLookup k' []
    rw [mapLookup_cons]
    rw [if_neg (Ne.symm h)]
  | cons e rest ih =>
    rw [mapInsert_cons, mapLookup_cons]
    by_cases he : e.1 = k
    · rw [if_pos he, mapLookup_cons, if_neg (Ne.symm h), if_neg]
      rw [he]
      exact Ne.symm h
    · rw [if_neg he, mapLookup_cons]
      by_cases he' : e.1 = k'
      · rw [if_pos he', if_pos he']
      · rw [if_neg he', if_neg he', ih]

theorem mapInsert_length_fresh (k : Key) (t : Tile) (m : List (Key × Tile))
    (h : mapLookup k m = none) : (mapInsert k t m).length = m.length + 1 := by
  induction m with
  | nil => simp [mapInsert]
  | cons e rest ih =>
    by_cases he : e.1 = k
    · simp [mapLookup, he] at h
    · simp only [mapLookup, he, if_false, ite_false] at h
      simp [mapInsert, he, ih h]

theorem mapLookup_insertAll_not_mem (k : Key) :
    ∀ (l : List (Key × Tile)) (m : List (Key × Tile)),
      k ∉ l.map Prod.fst → mapLookup k (insertAll m l) = mapLookup k m := by
  intro l
  induction l with
  | nil => intro m _; rfl
  | cons e rest ih =>
    intro m hk
    simp only [List.map_cons, List.mem_cons] at hk
    push_neg at hk
    have hstep : insertAll m (e :: rest) = insertAll (mapInsert e.1 e.2 m) rest := rfl
    rw [hstep, ih _ (hk.2), mapLookup_insert_ne _ _ _ _ (hk.1)]

theorem mapLookup_insertAll_mem (e : Key × Tile) :
    ∀ (l : List (Key × Tile)) (m : List (Key × Tile)),
      (l.map Prod.fst).Nodup → e ∈ l → mapLookup e.1 (insertAll m l) = some e.2 := by
  intro l
  induction l with
  | nil => intro m _ h; cases h
  | cons f rest ih =>
    intro m hnd hmem
    simp only [List.map_cons, List.nodup_cons] at hnd
    have hstep : insertAll m (f :: rest) = insertAll (mapInsert f.1 f.2 m) rest := rfl
    rcases List.mem_cons.mp hmem with he | he
    · subst he
      rw [hstep, mapLookup_insertAll_not_mem _ _ _ hnd.1, mapLookup_insert_self]
    · rw [hstep, ih _ hnd.2 he]

/-- Unfold `CacheServer.Get` at a canonical key over an enabled map. -/
theorem CacheServer.Get_canonical (K : ℤ) (M : List (Key × Tile)) (z x y : ℤ)
    (h0 : 0 ≤ z) (h1 : z ≤ 24) (hx0 : 0 ≤ x) (hx1 : x < 2 ^ z.toNat)
    (hy0 : 0 ≤ y) (hy1 : y < 2 ^ z.toNat) :
    (⟨K, some M⟩ : CacheServer).Get z x y =
      (match mapLookup (z, x, y) M with
       | none => Except.error TileError.notCached
       | some t => Except.ok t) := by
  unfold CacheServer.Get
  rw [normalizeTile_canonical z x y h0 h1 hx0 hx1 hy0 hy1]

/-- One admitted `Add` at a canonical key while there is room (or no limit). -/
theorem CacheServer.Add_admit (K : ℤ) (l : List (Key × Tile)) (z x y : ℤ) (t : Tile)
    (h0 : 0 ≤ z) (h1 : z ≤ 24) (hx0 : 0 ≤ x) (hx1 : x < 2 ^ z.toNat)
    (hy0 : 0 ≤ y) (hy1 : y < 2 ^ z.toNat)
    (hroom : K = 0 ∨ (l.length : ℤ) < K) :
    (⟨K, some l⟩ : CacheServer).Add z x y t = ⟨K, some (mapInsert (z, x, y) t l)⟩ := by
  unfold CacheServer.Add
  rw [normalizeTile_canonical z x y h0 h1 hx0 hx1 hy0 hy1]
  simp only [if_pos hroom]

/-- `Add` is a no-op once the map is at (or beyond) a non-zero capacity. -/
theorem CacheServer.Add_reject (K : ℤ) (l : List (Key × Tile)) (z x y : ℤ) (t : Tile)
    (hfull : ¬(K = 0 ∨ (l.length : ℤ) < K)) :
    (⟨K, some l⟩ : CacheServer).Add z x y t = ⟨K, some l⟩ := by
  unfold CacheServer.Add
  simp only [if_neg hfull]

theorem addAll_cons (c : CacheServer) (e : Key × Tile) (rest : List (Key × Tile)) :
    addAll c (e :: rest) = addAll (c.Add e.1.1 e.1.2.1 e.1.2.2 e.2) rest := rfl

/-- With a positive capacity, a run of fresh, pairwise distinct canonical
keys admits exactly the first entries that fit and ignores the rest. -/
theorem addAll_char (K : ℤ) (hK : 0 < K) :
    ∀ (ents : List (Key × Tile)) (m : List (Key × Tile)),
      (∀ e ∈ ents, canonicalKey e.1) →
      (ents.map Prod.fst).Nodup →
      (∀ e ∈ ents, mapLookup e.1 m = none) →
      addAll ⟨K, some m⟩ ents =
        ⟨K, some (insertAll m (ents.take (K.toNat - m.length)))⟩ := by
  intro ents
  induction ents with
  | nil =>
    intro m _ _ _
    simp [addAll, insertAll]
  | cons e rest ih =>
    intro m hcan hnd hfresh
    obtain ⟨hz0, hz1, hx0, hx1, hy0, hy1⟩ := hcan e (List.mem_cons_self e rest)
    simp only [List.map_cons, List.nodup_cons] at hnd
    rw [addAll_cons]
    by_cases hlen : (m.length : ℤ) < K
    · have hadd : (⟨K, some m⟩ : CacheServer).Add e.1.1 e.1.2.1 e.1.2.2 e.2 =
          ⟨K, some (mapInsert e.1 e.2 m)⟩ := by
        have := CacheServer.Add_admit K m e.1.1 e.1.2.1 e.1.2.2 e.2
          hz0 hz1 hx0 hx1 hy0 hy1 (Or.inr hlen)
        exact this
      rw [hadd]
      have hfreshe : mapLookup e.1 m = none := hfresh e (List.mem_cons_self e rest)
      have hlen' : (mapInsert e.1 e.2 m).length = m.length + 1 :=
        mapInsert_length_fresh e.1 e.2 m hfreshe
      have hrec := ih (mapInsert e.1 e.2 m)
        (fun f hf => hcan f (List.mem_cons_of_mem e hf)) hnd.2
        (fun f hf => by
          have hne : f.1 ≠ e.1 := by
            intro hfe
            exact hnd.1 (hfe ▸ List.mem_map_of_mem Prod.fst hf)
          rw [mapLookup_insert_ne e.1 f.1 e.2 m hne]
          exact hfresh f (List.mem_cons_of_mem e hf))
      rw [hrec, hlen']
      have htake : K.toNat - m.length = (K.toNat - (m.length + 1)) + 1 := by omega
      rw [htake, List.take_succ_cons]
      rfl
    · have hfull : ¬(K = 0 ∨ (m.length : ℤ) < K) := by
        push_neg
        omega
      rw [CacheServer.Add_reject K m e.1.1 e.1.2.1 e.1.2.2 e.2 hfull]
      have hrec := ih m (fun f hf => hcan f (List.mem_cons_of_mem e hf)) hnd.2
        (fun f hf => hfresh f (List.mem_cons_of_mem e hf))
      rw [hrec]
      have h0 : K.toNat - m.length = 0 := by omega
      rw [h0]
      rfl

/-- With the unlimited sentinel capacity 0, every canonical entry is stored. -/
theorem addAll_zero :
    ∀ (ents : List (Key × Tile)) (m : List (Key × Tile)),
      (∀ e ∈ ents, canonicalKey e.1) →
      addAll ⟨0, some m⟩ ents = ⟨0, some (insertAll m ents)⟩ := by
  intro ents
  induction ents with
  | nil => intro m _; rfl
  | cons e rest ih =>
    intro m hcan
    obtain ⟨hz0, hz1, hx0, hx1, hy0, hy1⟩ := hcan e (List.mem_cons_self e rest)
    rw [addAll_cons]
    have hadd := CacheServer.Add_admit 0 m e.1.1 e.1.2.1 e.1.2.2 e.2
      hz0 hz1 hx0 hx1 hy0 hy1 (Or.inl rfl)
    rw [hadd]
    exact ih (mapInsert e.1 e.2 m) (fun f hf => hcan f (List.mem_cons_of_mem e hf))

/-- C6: for a cache created with capacity K > 0, after adding N > K tiles
with distinct canonical (z,x,y) keys, exactly the first K added tiles are
retrievable by `Get` and the later ones report the not-cached error, any
absent key reports the not-cached error, and with the sentinel capacity 0
every added tile is retrievable. -/
theorem C6_cache_admission_bound (K : ℤ) (ents : List (Key × Tile))
    (hK : 0 < K) (hN : K < (ents.length : ℤ))
    (hcan : ∀ e ∈ ents, canonicalKey e.1)
    (hnd : (ents.map Prod.fst).Nodup) :
    (∀ e ∈ ents.take K.toNat,
      (addAll (NewCacheServer K) ents).Get e.1.1 e.1.2.1 e.1.2.2 = Except.ok e.2) ∧
    (∀ e ∈ ents.drop K.toNat,
      (addAll (NewCacheServer K) ents).Get e.1.1 e.1.2.1 e.1.2.2 =
        Except.error TileError.notCached) ∧
    (∀ k : Key, canonicalKey k → k ∉ ents.map Prod.fst →
      (addAll (NewCacheServer K) ents).Get k.1 k.2.1 k.2.2 =
        Except.error TileError.notCached) ∧
    (∀ e ∈ ents,
      (addAll (NewCacheServer 0) ents).Get e.1.1 e.1.2.1 e.1.2.2 = Except.ok e.2) := by
  have hchar : addAll (NewCacheServer K) ents =
      ⟨K, some (insertAll [] (ents.take K.toNat))⟩ := by
    have h := addAll_char K hK ents [] hcan hnd (fun e _ => rfl)
    simpa [NewCacheServer] using h
  have htakeNd : ((ents.take K.toNat).map Prod.fst).Nodup := by
    rw [List.map_take]
    exact List.Nodup.sublist (List.take_sublist _ _) hnd
  refine ⟨?_, ?_, ?_, ?_⟩
  · intro e he
    obtain ⟨hz0, hz1, hx0, hx1, hy0, hy1⟩ := hcan e (List.take_subset _ _ he)
    rw [hchar, CacheServer.Get_canonical K _ e.1.1 e.1.2.1 e.1.2.2
      hz0 hz1 hx0 hx1 hy0 hy1]
    have hlook : mapLookup e.1 (insertAll [] (ents.take K.toNat)) = some e.2 :=
      mapLookup_insertAll_mem e (ents.take K.toNat) [] htakeNd he
    rw [show ((e.1.1, e.1.2.1, e.1.2.2) : Key) = e.1 from rfl, hlook]
  · intro e he
    obtain ⟨hz0, hz1, hx0, hx1, hy0, hy1⟩ := hcan e (List.drop_subset _ _ he)
    have hmemdrop : e.1 ∈ (ents.map Prod.fst).drop K.toNat := by
      rw [← List.map_drop]
      exact List.mem_map_of_mem Prod.fst he
    have hnotin : e.1 ∉ (ents.take K.toNat).map Prod.fst := by
      rw [List.map_take]
      have hsplit := List.take_append_drop K.toNat (ents.map Prod.fst)
      have hnd' : ((ents.map Prod.fst).take K.toNat ++
          (ents.map Prod.fst).drop K.toNat).Nodup := by rw [hsplit]; exact hnd
      have hdisj := (List.nodup_append.mp hnd').2.2
      intro hmem
      exact hdisj hmem hmemdrop
    have hlook : mapLookup e.1 (insertAll [] (ents.take K.toNat)) = none := by
      rw [mapLookup_insertAll_not_mem e.1 (ents.take K.toNat) [] hnotin]
      rfl
    rw [hchar, CacheServer.Get_canonical K _ e.1.1 e.1.2.1 e.1.2.2
      hz0 hz1 hx0 hx1 hy0 hy1]
    rw [show ((e.1.1, e.1.2.1, e.1.2.2) : Key) = e.1 from rfl, hlook]
  · intro k hkcan hknot
    obtain ⟨hz0, hz1, hx0, hx1, hy0, hy1⟩ := hkcan
    have hnotin : k ∉ (ents.take K.toNat).map Prod.fst := by
      intro hmem
      rw [List.map_take] at hmem
      exact hknot (List.take_subset _ _ hmem)
    have hlook : mapLookup k (insertAll [] (ents.take K.toNat)) = none := by
      rw [mapLookup_insertAll_not_mem k (ents.take K.toNat) [] hnotin]
      rfl
    rw [hchar, CacheServer.Get_canonical K _ k.1 k.2.1 k.2.2
      hz0 hz1 hx0 hx1 hy0 hy1]
    rw [show ((k.1, k.2.1, k.2.2) : Key) = k from rfl, hlook]
  · intro e he
    obtain ⟨hz0, hz1, hx0, hx1, hy0, hy1⟩ := hcan e he
    rw [show addAll (NewCacheServer 0) ents =
        (⟨0, some (insertAll [] ents)⟩ : CacheServer) from addAll_zero ents [] hcan,
      CacheServer.Get_canonical 0 _ e.1.1 e.1.2.1 e.1.2.2
      hz0 hz1 hx0 hx1 hy0 hy1]
    have hlook : mapLookup e.1 (insertAll [] ents) = some e.2 :=
      mapLookup_insertAll_mem e ents [] hnd he
    rw [show ((e.1.1, e.1.2.1, e.1.2.2) : Key) = e.1 from rfl, hlook]

/-- Witness for C6 at K = 1 with two entries. -/
theorem C6_witness :
    (∀ e ∈ [(((0 : ℤ), (0 : ℤ), (0 : ℤ)), blackTile),
        (((1 : ℤ), (0 : ℤ), (0 : ℤ)), clearTile)].take (1 : ℤ).toNat,
      (addAll (NewCacheServer 1)
        [(((0 : ℤ), (0 : ℤ), (0 : ℤ)), blackTile),
         (((1 : ℤ), (0 : ℤ), (0 : ℤ)), clearTile)]).Get e.1.1 e.1.2.1 e.1.2.2 =
        Except.ok e.2) ∧
    (∀ e ∈ [(((0 : ℤ), (0 : ℤ), (0 : ℤ)), blackTile),
        (((1 : ℤ), (0 : ℤ), (0 : ℤ)), clearTile)].drop (1 : ℤ).toNat,
      (addAll (NewCacheServer 1)
        [(((0 : ℤ), (0 : ℤ), (0 : ℤ)), blackTile),
         (((1 : ℤ), (0 : ℤ), (0 : ℤ)), clearTile)]).Get e.1.1 e.1.2.1 e.1.2.2 =
        Except.error TileError.notCached) ∧
    (∀ k : Key, canonicalKey k →
      k ∉ [(((0 : ℤ), (0 : ℤ), (0 : ℤ)), blackTile),
        (((1 : ℤ), (0 : ℤ), (0 : ℤ)), clearTile)].map Prod.fst →
      (addAll (NewCacheServer 1)
        [(((0 : ℤ), (0 : ℤ), (0 : ℤ)), blackTile),
         (((1 : ℤ), (0 : ℤ), (0 : ℤ)), clearTile)]).Get k.1 k.2.1 k.2.2 =
        Except.error TileError.notCached) ∧
    (∀ e ∈ [(((0 : ℤ), (0 : ℤ), (0 : ℤ)), blackTile),
        (((1 : ℤ), (0 : ℤ), (0 : ℤ)), clearTile)],
      (addAll (NewCacheServer 0)
        [(((0 : ℤ), (0 : ℤ), (0 : ℤ)), blackTile),
         (((1 : ℤ), (0 : ℤ), (0 : ℤ)), clearTile)]).Get e.1.1 e.1.2.1 e.1.2.2 =
        Except.ok e.2) :=
  C6_cache_admission_bound 1
    [(((0 : ℤ), (0 : ℤ), (0 : ℤ)), blackTile), (((1 : ℤ), (0 : ℤ), (0 : ℤ)), clearTile)]
    (by decide) (by decide) (by decide) (by decide)

/-- C10: on the zero-value `CacheServer` (nil internal map), `Get` reports
the not-cached error and `Add` leaves the cache unchanged, for every zoom
level in 0..24 and all indexes. -/
theorem C10_zero_value_cache (z x y : ℤ) (t : Tile) (h0 : 0 ≤ z) (h1 : z ≤ 24) :
    zeroCacheServer.Get z x y = Except.error TileError.notCached ∧
    zeroCacheServer.Add z x y t = zeroCacheServer :=
  ⟨rfl, rfl⟩

/-- Witness for C10 at z = 0, x = 0, y = 0 with the black tile. -/
theorem C10_witness :
    zeroCacheServer.Get 0 0 0 = Except.error TileError.notCached ∧
    zeroCacheServer.Add 0 0 0 blackTile = zeroCacheServer :=
  C10_zero_value_cache 0 0 0 blackTile (by decide) (by decide)

/-! ## The combined source -/

theorem cacheGet_norm (cs : CacheServer) (z x y : ℤ) :
    cs.Get z (normalizeTile z x y).1 (normalizeTile z x y).2 = cs.Get z x y := by
  unfold CacheServer.Get
  rw [normalizeTile_idem]

theorem cacheAdd_norm (cs : CacheServer) (z x y : ℤ) (t : Tile) :
    cs.Add z (normalizeTile z x y).1 (normalizeTile z x y).2 t = cs.Add z x y t := by
  unfold CacheServer.Add
  rw [normalizeTile_idem]

theorem localGet_norm (w : World) (z x y : ℤ) :
    LocalServer.Get w z (normalizeTile z x y).1 (normalizeTile z x y).2 =
      LocalServer.Get w z x y := by
  unfold LocalServer.Get
  rw [normalizeTile_idem]

theorem localAdd_norm (w : World) (z x y : ℤ) (t : Tile) :
    LocalServer.Add w z (normalizeTile z x y).1 (normalizeTile z x y).2 t =
      LocalServer.Add w z x y t := by
  unfold LocalServer.Add
  rw [normalizeTile_idem]

theorem backfill_norm (c : CombinedServer) (z x y : ℤ) (t : Tile) :
    backfill c z (normalizeTile z x y).1 (normalizeTile z x y).2 t =
      backfill c z x y t := by
  unfold backfill
  cases c.Cache with
  | none => rfl
  | some cs => simp only [cacheAdd_norm]

theorem getHttp_err_none (c : CombinedServer) (w : World) (z x y : ℤ) (lr : ℕ) :
    (c.getHttp w z x y lr).err = none := by
  simp only [CombinedServer.getHttp]
  by_cases h : c.Http
  · simp only [h, if_true]
    cases hnet : w.net (z, (normalizeTile z x y).1, (normalizeTile z x y).2) <;>
      simp [hnet]
  · simp only [h, Bool.false_eq_true, if_false]

/-- A configured-but-missing (or unconfigured) remote layer yields black. -/
theorem getHttp_miss (c : CombinedServer) (w : World) (z x y : ℤ) (lr : ℕ)
    (hnet : c.Http = true →
      w.net (z, (normalizeTile z x y).1, (normalizeTile z x y).2) = none) :
    (c.getHttp w z x y lr).tile = blackTile := by
  simp only [CombinedServer.getHttp]
  by_cases h : c.Http
  · simp only [h, if_true]
    rw [hnet h]
  · simp only [h, Bool.false_eq_true, if_false]

theorem getLocal_err_none (c : CombinedServer) (w : World) (z x y : ℤ) :
    (c.getLocal w z x y).err = none := by
  unfold CombinedServer.getLocal
  by_cases h : c.Local <;> simp only [h, if_true, if_false, Bool.false_eq_true]
  · cases hl : LocalServer.Get w z x y with
    | ok t => rfl
    | error e => exact getHttp_err_none c w z x y 1
  · exact getHttp_err_none c w z x y 0

theorem get_err_none (c : CombinedServer) (w : World) (z x y : ℤ) :
    (c.get w z x y).err = none := by
  unfold CombinedServer.get
  cases hc : c.Cache with
  | none => exact getLocal_err_none c w z _ _
  | some cs =>
    by_cases hm : cs.m.isSome <;> simp only [hm, if_true, if_false, Bool.false_eq_true]
    · cases hg : cs.Get z (normalizeTile z x y).1 (normalizeTile z x y).2 with
      | ok t => rfl
      | error e => exact getLocal_err_none c w z _ _
    · exact getLocal_err_none c w z _ _

/-- C2: for every zoom level in 0..24 and all indexes, the combined lookup
(`get`, and `Get` with overlay) never carries a non-nil error, and when
the cache, local-disk and remote layers all miss or are unconfigured the
lookup returns the designated solid-black fallback tile. -/
theorem C2_combined_never_fails (c : CombinedServer) (w : World) (z x y : ℤ)
    (h0 : 0 ≤ z) (h1 : z ≤ 24) :
    (c.get w z x y).err = none ∧
    (c.Get w z x y).err = none ∧
    ((∀ cs, c.Cache = some cs → ∀ t, cs.Get z x y ≠ Except.ok t) →
     (c.Local = true → ∀ t, LocalServer.Get w z x y ≠ Except.ok t) →
     (c.Http = true →
       w.net (z, (normalizeTile z x y).1, (normalizeTile z x y).2) = none) →
     (c.get w z x y).tile = blackTile) := by
  refine ⟨get_err_none c w z x y, ?_, ?_⟩
  · unfold CombinedServer.Get
    have herr := get_err_none c w z x y
    simp only [herr, Option.isSome_none, Bool.false_eq_true, if_false]
    cases c.Points with
    | none => exact herr
    | some p => rfl
  · intro hcache hlocal hhttp
    have hnet' : ∀ lr, (c.getHttp w z (normalizeTile z x y).1
        (normalizeTile z x y).2 lr).tile = blackTile := by
      intro lr
      refine getHttp_miss c w z _ _ lr ?_
      intro hh
      rw [normalizeTile_idem]
      exact hhttp hh
    have hblackLocal :
        (c.getLocal w z (normalizeTile z x y).1 (normalizeTile z x y).2).tile
          = blackTile := by
      simp only [CombinedServer.getLocal]
      by_cases hl : c.Local
      · simp only [hl, if_true]
        rw [localGet_norm]
        cases hg : LocalServer.Get w z x y with
        | ok t => exact absurd hg (hlocal hl t)
        | error e => exact hnet' 1
      · simp only [hl, Bool.false_eq_true, if_false]
        exact hnet' 0
    simp only [CombinedServer.get]
    cases hc : c.Cache with
    | none => exact hblackLocal
    | some cs =>
      by_cases hm : cs.m.isSome <;>
        simp only [hm, if_true, if_false, Bool.false_eq_true]
      · rw [cacheGet_norm]
        cases hg : cs.Get z x y with
        | ok t => exact absurd hg (hcache cs hc t)
        | error e => exact hblackLocal
      · exact hblackLocal

/-- Witness for C2 at an empty configuration and z = 0. -/
theorem C2_witness :
    (((⟨none, none, false, false⟩ : CombinedServer).get ⟨[], fun _ => none⟩ 0 0 0).err
      = none ∧
    ((⟨none, none, false, false⟩ : CombinedServer).Get ⟨[], fun _ => none⟩ 0 0 0).err
      = none ∧
    ((∀ cs, (⟨none, none, false, false⟩ : CombinedServer).Cache = some cs →
        ∀ t, cs.Get 0 0 0 ≠ Except.ok t) →
     ((⟨none, none, false, false⟩ : CombinedServer).Local = true →
        ∀ t, LocalServer.Get ⟨[], fun _ => none⟩ 0 0 0 ≠ Except.ok t) →
     ((⟨none, none, false, false⟩ : CombinedServer).Http = true →
        (⟨[], fun _ => none⟩ : World).net
          (0, (normalizeTile 0 0 0).1, (normalizeTile 0 0 0).2) = none) →
     ((⟨none, none, false, false⟩ : CombinedServer).get ⟨[], fun _ => none⟩ 0 0 0).tile
       = blackTile)) :=
  C2_combined_never_fails ⟨none, none, false, false⟩ ⟨[], fun _ => none⟩ 0 0 0
    (by decide) (by decide)

/-- An enabled cache with room admits the tile and serves it back. -/
theorem CacheServer.Add_then_Get (cs : CacheServer) (lm : List (Key × Tile))
    (z x y : ℤ) (t : Tile) (hm : cs.m = some lm)
    (hroom : cs.maxTiles = 0 ∨ (lm.length : ℤ) < cs.maxTiles) :
    (cs.Add z x y t).Get z x y = Except.ok t ∧ (cs.Add z x y t).m.isSome = true := by
  have hadd : cs.Add z x y t =
      ⟨cs.maxTiles, some (mapInsert (z, (normalizeTile z x y).1,
        (normalizeTile z x y).2) t lm)⟩ := by
    unfold CacheServer.Add
    rw [hm]
    simp only [if_pos hroom]
  rw [hadd]
  refine ⟨?_, rfl⟩
  simp only [CacheServer.Get]
  rw [mapLookup_insert_self]

/-- C3 (amended): the combined `get` consults Cache, then Local-Disk, then
Remote in that order, skipping unconfigured layers and returning the first
hit; a Local-Disk hit invokes the Cache's add and changes nothing else; a
Remote hit backfills both the disk and the Cache; and provided the Cache is
configured, enabled and below its capacity ceiling (or unlimited) at
backfill time, the repeated lookup for the same coordinates is served from
the Cache without reading Local-Disk again. -/
theorem C3_combined_fallback_order (c : CombinedServer) (w : World) (z x y : ℤ)
    (h0 : 0 ≤ z) (h1 : z ≤ 24) :
    (∀ cs t, c.Cache = some cs → cs.m.isSome = true → cs.Get z x y = Except.ok t →
      c.get w z x y = ⟨t, none, c, w, 0, 0⟩) ∧
    (∀ t, (∀ cs, c.Cache = some cs → ∀ t', cs.Get z x y ≠ Except.ok t') →
      c.Local = true → LocalServer.Get w z x y = Except.ok t →
      c.get w z x y = ⟨t, none, backfill c z x y t, w, 1, 0⟩) ∧
    (∀ t, (∀ cs, c.Cache = some cs → ∀ t', cs.Get z x y ≠ Except.ok t') →
      (c.Local = true → ∀ t', LocalServer.Get w z x y ≠ Except.ok t') →
      c.Http = true →
      w.net (z, (normalizeTile z x y).1, (normalizeTile z x y).2) = some t →
      c.get w z x y = ⟨t, none, backfill c z x y t,
        (if c.Local = true then LocalServer.Add w z x y t else w),
        (if c.Local = true then 1 else 0), 1⟩) ∧
    (∀ t cs lm, c.Cache = some cs → cs.m = some lm →
      (cs.maxTiles = 0 ∨ (lm.length : ℤ) < cs.maxTiles) →
      c.Local = true → LocalServer.Get w z x y = Except.ok t →
      (backfill c z x y t).get w z x y =
        ⟨t, none, backfill c z x y t, w, 0, 0⟩) := by
  have hgetLocal : ∀ t, c.Local = true → LocalServer.Get w z x y = Except.ok t →
      c.getLocal w z (normalizeTile z x y).1 (normalizeTile z x y).2 =
        ⟨t, none, backfill c z x y t, w, 1, 0⟩ := by
    intro t hl hget
    simp only [CombinedServer.getLocal, hl, if_true]
    rw [localGet_norm, hget]
    simp only [backfill_norm]
  have hgetHttp : ∀ t lr,
      w.net (z, (normalizeTile z x y).1, (normalizeTile z x y).2) = some t →
      c.Http = true →
      c.getHttp w z (normalizeTile z x y).1 (normalizeTile z x y).2 lr =
        ⟨t, none, backfill c z x y t,
          (if c.Local = true then LocalServer.Add w z x y t else w), lr, 1⟩ := by
    intro t lr hnet hh
    simp only [CombinedServer.getHttp, hh, if_true]
    rw [normalizeTile_idem, hnet]
    simp only [backfill_norm, localAdd_norm]
  refine ⟨?_, ?_, ?_, ?_⟩
  · intro cs t hc hm hget
    simp only [CombinedServer.get, hc, hm, if_true]
    rw [cacheGet_norm, hget]
  · intro t hmiss hl hget
    have hstep := hgetLocal t hl hget
    simp only [CombinedServer.get]
    cases hc : c.Cache with
    | none => exact hstep
    | some cs =>
      by_cases hm : cs.m.isSome
      · simp only [hm, if_true]
        rw [cacheGet_norm]
        cases hg : cs.Get z x y with
        | ok t' => exact absurd hg (hmiss cs hc t')
        | error e => exact hstep
      · simp only [hm, Bool.false_eq_true, if_false]
        exact hstep
  · intro t hmiss hlmiss hh hnet
    have hhttp1 := hgetHttp t 1 hnet hh
    have hhttp0 := hgetHttp t 0 hnet hh
    have hstep : c.getLocal w z (normalizeTile z x y).1 (normalizeTile z x y).2 =
        ⟨t, none, backfill c z x y t,
          (if c.Local = true then LocalServer.Add w z x y t else w),
          (if c.Local = true then 1 else 0), 1⟩ := by
      simp only [CombinedServer.getLocal]
      by_cases hl : c.Local
      · simp only [hl, if_true] at hhttp1 ⊢
        rw [localGet_norm]
        cases hg : LocalServer.Get w z x y with
        | ok t' => exact absurd hg (hlmiss hl t')
        | error e => exact hhttp1
      · simp only [hl, Bool.false_eq_true, if_false] at hhttp0 ⊢
        exact hhttp0
    simp only [CombinedServer.get]
    cases hc : c.Cache with
    | none => exact hstep
    | some cs =>
      by_cases hm : cs.m.isSome
      · simp only [hm, if_true]
        rw [cacheGet_norm]
        cases hg : cs.Get z x y with
        | ok t' => exact absurd hg (hmiss cs hc t')
        | error e => exact hstep
      · simp only [hm, Bool.false_eq_true, if_false]
        exact hstep
  · intro t cs lm hc hm hroom _hl _hget
    have hAG := CacheServer.Add_then_Get cs lm z x y t hm hroom
    have hbf : backfill c z x y t = { c with Cache := some (cs.Add z x y t) } := by
      unfold backfill
      rw [hc]
      simp only [hm, Option.isSome_some, if_true]
    rw [hbf]
    simp only [CombinedServer.get, hAG.2, if_true]
    rw [cacheGet_norm, hAG.1]

/-- Counterexample to C3 as stated: with a configured cache already at its
capacity ceiling (capacity 1, holding another tile), a Local-Disk hit calls
the Cache's add but nothing is stored, so the second lookup for the same
coordinates reads Local-Disk again (the spy counts 1, not 0). -/
theorem C3_counterexample :
    ((⟨none, some ⟨1, some [(((1 : ℤ), (1 : ℤ), (1 : ℤ)), clearTile)]⟩, true, false⟩ :
        CombinedServer).get
      ⟨[(((1 : ℤ), (0 : ℤ), (0 : ℤ)), blackTile)], fun _ => none⟩ 1 0 0).localReads
        = 1 ∧
    (((⟨none, some ⟨1, some [(((1 : ℤ), (1 : ℤ), (1 : ℤ)), clearTile)]⟩, true, false⟩ :
        CombinedServer).get
      ⟨[(((1 : ℤ), (0 : ℤ), (0 : ℤ)), blackTile)], fun _ => none⟩ 1 0 0).server.get
      (((⟨none, some ⟨1, some [(((1 : ℤ), (1 : ℤ), (1 : ℤ)), clearTile)]⟩, true, false⟩ :
        CombinedServer).get
      ⟨[(((1 : ℤ), (0 : ℤ), (0 : ℤ)), blackTile)], fun _ => none⟩ 1 0 0).world) 1 0 0).localReads
        = 1 :=
  ⟨rfl, rfl⟩

/-- Witness for C3 at a cache-free configuration with a local-disk hit. -/
theorem C3_witness :
    (⟨none, none, true, false⟩ : CombinedServer).get
      ⟨[(((1 : ℤ), (0 : ℤ), (0 : ℤ)), blackTile)], fun _ => none⟩ 1 0 0 =
      ⟨blackTile, none, backfill ⟨none, none, true, false⟩ 1 0 0 blackTile,
        ⟨[(((1 : ℤ), (0 : ℤ), (0 : ℤ)), blackTile)], fun _ => none⟩, 1, 0⟩ :=
  ((C3_combined_fallback_order ⟨none, none, true, false⟩
      ⟨[(((1 : ℤ), (0 : ℤ), (0 : ℤ)), blackTile)], fun _ => none⟩ 1 0 0
      (by decide) (by decide)).2.1) blackTile
    (fun cs hcs => nomatch hcs) rfl rfl

/-! ## Evaluating the projection on concrete inputs -/

theorem trunc_eq_of (x : ℝ) (n : ℤ) (hx : 0 ≤ x) (hl : (n : ℝ) ≤ x)
    (hu : x < n + 1) : trunc x = n := by
  unfold trunc
  rw [if_pos hx]
  rw [Int.floor_eq_iff]
  exact ⟨hl, hu⟩

theorem MaxLatitude_nonneg : (0 : ℝ) ≤ MaxLatitude := by
  unfold MaxLatitude
  norm_num

theorem MinLatitude_nonpos (z : ℤ) (h0 : 0 ≤ z) : MinLatitude z ≤ 0 := by
  unfold MinLatitude XY.LatLon
  have hpow : (0 : ℝ) < 2 ^ z.toNat := by positivity
  have h2t : (1 : ℝ) ≤ 2 ^ z.toNat := one_le_pow₀ (by norm_num)
  have htwo : two z = 2 ^ z.toNat := rfl
  set t := z.toNat with ht
  have hcast : (((2 ^ t - 1 : ℤ) : ℝ)) = 2 ^ t - 1 := by push_cast; ring
  have hn : Real.pi - 2 * Real.pi * ((((2 ^ t - 1 : ℤ) : ℝ)) + ((255 : ℤ) : ℝ) / 256)
      / two z ≤ 0 := by
    rw [htwo]
    have hy : (2 : ℝ) ^ t / 2 ≤ (((2 ^ t - 1 : ℤ) : ℝ)) + ((255 : ℤ) : ℝ) / 256 := by
      rw [hcast]
      push_cast
      linarith
    have hmono : 2 * Real.pi * ((2 : ℝ) ^ t / 2) / 2 ^ t ≤
        2 * Real.pi * ((((2 ^ t - 1 : ℤ) : ℝ)) + ((255 : ℤ) : ℝ) / 256) / 2 ^ t := by
      gcongr
    have hval : 2 * Real.pi * ((2 : ℝ) ^ t / 2) / 2 ^ t = Real.pi := by
      field_simp
      ring
    linarith
  set n := Real.pi - 2 * Real.pi * ((((2 ^ t - 1 : ℤ) : ℝ)) + ((255 : ℤ) : ℝ) / 256)
      / two z with hndef
  have hexp : Real.exp n - Real.exp (-n) ≤ 0 := by
    have : Real.exp n ≤ Real.exp (-n) := Real.exp_le_exp.mpr (by linarith)
    linarith
  have harctan : Real.arctan (0.5 * (Real.exp n - Real.exp (-n))) ≤ 0 := by
    have hs : (0.5 : ℝ) * (Real.exp n - Real.exp (-n)) ≤ 0 := by linarith
    have := Real.arctan_strictMono.monotone hs
    rwa [Real.arctan_zero] at this
  have h180 : (0 : ℝ) ≤ 180 / Real.pi := by positivity
  exact mul_nonpos_of_nonneg_of_nonpos h180 harctan

/-- On the equator the latitude formula collapses: the fractional y
coordinate is exactly half the tile row count. -/
theorem XY_equator (lon : ℝ) (z : ℤ) (h0 : 0 ≤ z) (h1 : z ≤ 24) :
    Maps.LatLon.XY ⟨0, lon⟩ z =
      Except.ok
        { X := trunc ((lon + 180) / 360 * two z)
          Y := trunc (two z / 2)
          XP := trunc (256 * ((lon + 180) / 360 * two z
            - (trunc ((lon + 180) / 360 * two z) : ℝ)))
          YP := trunc (256 * (two z / 2 - (trunc (two z / 2) : ℝ)))
          Z := z } := by
  unfold Maps.LatLon.XY
  rw [if_neg (by omega : ¬(z < 0 ∨ 24 < z))]
  rw [if_neg ?hlat]
  case hlat =>
    rintro (h | h)
    · exact absurd h (not_lt.mpr (MinLatitude_nonpos z h0))
    · exact absurd h (not_lt.mpr MaxLatitude_nonneg)
  have hy : (1 - Real.log (Real.tan (radians 0) + 1 / Real.cos (radians 0))
      / Real.pi) / 2 * two z = two z / 2 := by
    have hr : radians 0 = 0 := by unfold radians; norm_num
    rw [hr, Real.tan_zero, Real.cos_zero]
    norm_num
    ring
  show (Except.ok
      (XY.mk (trunc ((lon + 180) / 360 * two z))
        (trunc ((1 - Real.log (Real.tan (radians 0) + 1 / Real.cos (radians 0))
          / Real.pi) / 2 * two z))
        (trunc (256 * ((lon + 180) / 360 * two z
          - (trunc ((lon + 180) / 360 * two z) : ℝ))))
        (trunc (256 * ((1 - Real.log (Real.tan (radians 0) + 1 / Real.cos (radians 0))
          / Real.pi) / 2 * two z
          - (trunc ((1 - Real.log (Real.tan (radians 0) + 1 / Real.cos (radians 0))
            / Real.pi) / 2 * two z) : ℝ))))
        z) : Except XYError XY) =
      Except.ok
        (XY.mk (trunc ((lon + 180) / 360 * two z))
          (trunc (two z / 2))
          (trunc (256 * ((lon + 180) / 360 * two z
            - (trunc ((lon + 180) / 360 * two z) : ℝ))))
          (trunc (256 * (two z / 2 - (trunc (two z / 2) : ℝ))))
          z)
  rw [hy]

theorem XY_eval_00_z0 :
    Maps.LatLon.XY ⟨0, 0⟩ 0 = Except.ok ⟨0, 0, 128, 128, 0⟩ := by
  have h2 : two 0 = 1 := by norm_num [two]
  rw [XY_equator 0 0 le_rfl (by norm_num)]
  have hx : trunc ((0 + 180) / 360 * two 0) = 0 := by
    rw [h2]; apply trunc_eq_of <;> norm_num
  have hy : trunc (two 0 / 2) = 0 := by
    rw [h2]; apply trunc_eq_of <;> norm_num
  rw [hx, hy]
  have hxp : trunc (256 * ((0 + 180) / 360 * two 0 - ((0 : ℤ) : ℝ))) = 128 := by
    rw [h2]; apply trunc_eq_of <;> norm_num
  have hyp : trunc (256 * (two 0 / 2 - ((0 : ℤ) : ℝ))) = 128 := by
    rw [h2]; apply trunc_eq_of <;> norm_num
  rw [hxp, hyp]

theorem XY_eval_00_z1 :
    Maps.LatLon.XY ⟨0, 0⟩ 1 = Except.ok ⟨1, 1, 0, 0, 1⟩ := by
  have h2 : two 1 = 2 := by norm_num [two]
  rw [XY_equator 0 1 (by norm_num) (by norm_num)]
  have hx : trunc ((0 + 180) / 360 * two 1) = 1 := by
    rw [h2]; apply trunc_eq_of <;> norm_num
  have hy : trunc (two 1 / 2) = 1 := by
    rw [h2]; apply trunc_eq_of <;> norm_num
  rw [hx, hy]
  have hxp : trunc (256 * ((0 + 180) / 360 * two 1 - ((1 : ℤ) : ℝ))) = 0 := by
    rw [h2]; apply trunc_eq_of <;> norm_num
  have hyp : trunc (256 * (two 1 / 2 - ((1 : ℤ) : ℝ))) = 0 := by
    rw [h2]; apply trunc_eq_of <;> norm_num
  rw [hxp, hyp]

theorem XY_eval_w180_z6 :
    Maps.LatLon.XY ⟨0, -180⟩ 6 = Except.ok ⟨0, 32, 0, 0, 6⟩ := by
  have h2 : two 6 = 64 := by unfold two; rw [show (6 : ℤ).toNat = 6 from rfl]; norm_num
  rw [XY_equator (-180) 6 (by norm_num) (by norm_num)]
  have hx : trunc ((-180 + 180) / 360 * two 6) = 0 := by
    rw [h2]; apply trunc_eq_of <;> norm_num
  have hy : trunc (two 6 / 2) = 32 := by
    rw [h2]; apply trunc_eq_of <;> norm_num
  rw [hx, hy]
  have hxp : trunc (256 * ((-180 + 180) / 360 * two 6 - ((0 : ℤ) : ℝ))) = 0 := by
    rw [h2]; apply trunc_eq_of <;> norm_num
  have hyp : trunc (256 * (two 6 / 2 - ((32 : ℤ) : ℝ))) = 0 := by
    rw [h2]; apply trunc_eq_of <;> norm_num
  rw [hxp, hyp]

theorem XY_eval_e180_z6 :
    Maps.LatLon.XY ⟨0, 180⟩ 6 = Except.ok ⟨64, 32, 0, 0, 6⟩ := by
  have h2 : two 6 = 64 := by unfold two; rw [show (6 : ℤ).toNat = 6 from rfl]; norm_num
  rw [XY_equator 180 6 (by norm_num) (by norm_num)]
  have hx : trunc ((180 + 180) / 360 * two 6) = 64 := by
    rw [h2]; apply trunc_eq_of <;> norm_num
  have hy : trunc (two 6 / 2) = 32 := by
    rw [h2]; apply trunc_eq_of <;> norm_num
  rw [hx, hy]
  have hxp : trunc (256 * ((180 + 180) / 360 * two 6 - ((64 : ℤ) : ℝ))) = 0 := by
    rw [h2]; apply trunc_eq_of <;> norm_num
  have hyp : trunc (256 * (two 6 / 2 - ((32 : ℤ) : ℝ))) = 0 := by
    rw [h2]; apply trunc_eq_of <;> norm_num
  rw [hxp, hyp]

/-- C5: `LatLon.XY` fails with the zoom-range error exactly when the zoom
is outside 0..24; for a zoom in range it fails with the latitude error
(carrying the latitude) exactly when the latitude is outside
[MinLatitude z, MaxLatitude]; and it returns a tile address exactly when
both checks pass. -/
theorem C5_projection_domain (d : Maps.LatLon) (z : ℤ) :
    (Maps.LatLon.XY d z = Except.error XYError.zoomRange ↔ (z < 0 ∨ 24 < z)) ∧
    (Maps.LatLon.XY d z = Except.error (XYError.latRange d.Lat) ↔
      ((0 ≤ z ∧ z ≤ 24) ∧ (d.Lat < MinLatitude z ∨ MaxLatitude < d.Lat))) ∧
    ((∃ xy, Maps.LatLon.XY d z = Except.ok xy) ↔
      ((0 ≤ z ∧ z ≤ 24) ∧ MinLatitude z ≤ d.Lat ∧ d.Lat ≤ MaxLatitude)) := by
  unfold Maps.LatLon.XY
  by_cases h1 : z < 0 ∨ 24 < z
  · rw [if_pos h1]
    refine ⟨?_, ?_, ?_⟩
    · simp [h1]
    · constructor
      · intro hh
        simp at hh
      · rintro ⟨⟨hz0, hz1⟩, _⟩
        exfalso
        omega
    · constructor
      · rintro ⟨xy, hxy⟩
        simp at hxy
      · rintro ⟨⟨hz0, hz1⟩, _⟩
        exfalso
        omega
  · rw [if_neg h1]
    by_cases h2 : d.Lat < MinLatitude z ∨ MaxLatitude < d.Lat
    · rw [if_pos h2]
      refine ⟨?_, ?_, ?_⟩
      · constructor
        · intro hh
          simp at hh
        · intro hh
          exfalso
          omega
      · constructor
        · intro _
          exact ⟨⟨by omega, by omega⟩, h2⟩
        · intro _
          rfl
      · constructor
        · rintro ⟨xy, hxy⟩
          simp at hxy
        · rintro ⟨_, hmin, hmax⟩
          exfalso
          rcases h2 with h | h
          · exact absurd h (not_lt.mpr hmin)
          · exact absurd h (not_lt.mpr hmax)
    · rw [if_neg h2]
      push_neg at h2
      refine ⟨?_, ?_, ?_⟩
      · constructor
        · intro hh
          simp at hh
        · intro hh
          exfalso
          omega
      · constructor
        · intro hh
          simp at hh
        · rintro ⟨_, hlt⟩
          exfalso
          rcases hlt with h | h
          · exact absurd h (not_lt.mpr h2.1)
          · exact absurd h (not_lt.mpr h2.2)
      · constructor
        · intro _
          exact ⟨⟨by omega, by omega⟩, h2.1, h2.2⟩
        · intro _
          exact ⟨_, rfl⟩

/-- C1: the size guard of `Encode` undercounts.  For the map with corners
on the equator spanning the full longitude range at zoom 6, the region
holds (64-0+1)*(32-32+1) = 65 tiles (the count the spec describes, and the
count `sqlitePipe`'s inclusive loops visit), yet `Count` returns 0 because
it multiplies the index differences without the inclusive +1, so `Encode`
proceeds to create the directory instead of failing with the
requested-map-is-too-large error. -/
theorem C1_size_guard_undercount :
    orux.Map.Count ⟨⟨0, -180⟩, ⟨0, 180⟩, [6]⟩ = Except.ok 0 ∧
    orux.Map.EncodeGuard ⟨⟨0, -180⟩, ⟨0, 180⟩, [6]⟩ = orux.EncodeDecision.mkdir ∧
    orux.Map.CountSpec ⟨⟨0, -180⟩, ⟨0, 180⟩, [6]⟩ = Except.ok 65 ∧
    Maps.LatLon.XY ⟨0, -180⟩ 6 = Except.ok ⟨0, 32, 0, 0, 6⟩ ∧
    Maps.LatLon.XY ⟨0, 180⟩ 6 = Except.ok ⟨64, 32, 0, 0, 6⟩ := by
  have hcount : orux.Map.Count ⟨⟨0, -180⟩, ⟨0, 180⟩, [6]⟩ = Except.ok 0 := by
    unfold orux.Map.Count
    simp only [List.foldlM_cons, List.foldlM_nil, XY_eval_w180_z6, XY_eval_e180_z6]
    norm_num
  have hspec : orux.Map.CountSpec ⟨⟨0, -180⟩, ⟨0, 180⟩, [6]⟩ = Except.ok 65 := by
    unfold orux.Map.CountSpec
    simp only [List.foldlM_cons, List.foldlM_nil, XY_eval_w180_z6, XY_eval_e180_z6]
    norm_num
  refine ⟨hcount, ?_, hspec, XY_eval_w180_z6, XY_eval_e180_z6⟩
  unfold orux.Map.EncodeGuard
  rw [hcount]
  norm_num [orux.tileLimit]

/-- C7: `SparsePointServer.Next` calls `Get` with its zero-valued named
returns instead of the stored key and zoom, so on a server built at zoom 1
from the single point (0°,0°) the first `Next` reports a zoom-mismatch
error with a nil tile instead of the tile of the enumerated index (1,1). -/
theorem C7_sparse_next_bug :
    NewSparsePointServer 1 [⟨0, 0⟩] =
      Except.ok ⟨1, [((1, 1), [(0, 0)])], [(1, 1)], 0⟩ ∧
    SparsePointServer.Next ⟨1, [((1, 1), [(0, 0)])], [(1, 1)], 0⟩ =
      ((1, 1, 1, none, some (TileError.zoomMismatch 0 1)),
        ⟨1, [((1, 1), [(0, 0)])], [(1, 1)], 1⟩) := by
  constructor
  · unfold NewSparsePointServer
    rw [if_neg (by norm_num : ¬((1 : ℤ) < 0 ∨ (24 : ℤ) < 1))]
    simp only [List.foldlM_cons, List.foldlM_nil, XY_eval_00_z1]
    rfl
  · rfl

/-- C8: `PointServer.Get` draws a coordinate only when its conversion
fails (the condition is inverted), so the point (0°,0°), which falls at
pixel (128,128) of tile (0,0) at zoom 0, is not drawn: the returned tile
is fully transparent. -/
theorem C8_point_overlay_bug :
    Maps.LatLon.XY ⟨0, 0⟩ 0 = Except.ok ⟨0, 0, 128, 128, 0⟩ ∧
    PointServer.Get ⟨Maps.markColor, [⟨0, 0⟩]⟩ 0 0 0 = (clearTile, none) := by
  refine ⟨XY_eval_00_z0, ?_⟩
  unfold PointServer.Get
  simp only [List.foldl_cons, List.foldl_nil, XY_eval_00_z0]

end Maps
